import Mathlib

/-!
Verification of the filter/sort/persistence/export pipeline of `src/js/main.js`
(a browser-side university-rankings viewer) against its specification.

The JavaScript is shallowly embedded: JS numbers used as integers become `Int`,
JS `null`/`undefined` become `Option`, strings stay `String` but all operations
are defined on `List Char` so that every definition is structurally recursive
and kernel-executable.  `Array.prototype.sort` (stable per ECMA-262) is
modelled by `List.mergeSort`.
-/

set_option maxRecDepth 8192

namespace Ediguide

/-! ## Data model -/

/-- One raw element of the input JSON array (`data/rankings.json`), after the
JS `Number(...)` coercion of its numeric fields: `rankNum = none` models an
absent or non-numeric `rank` (where `Number` yields `NaN`); the string fields
model JS `undefined` as `""`, matching the falsy tests the code performs on
them; `score = none` models an absent or `null` score. -/
structure RawEntry where
  rankNum : Option Int
  university : String
  name : String
  country : String
  score : Option Int
deriving DecidableEq

/-- A normalized ranking record produced by `loadData` (lines 95–101).
`score = none` models JS `null`; `raw` keeps the original element, as the
source does. -/
structure RankingEntry where
  rank : Int
  university : String
  country : String
  score : Option Int
  raw : RawEntry
deriving DecidableEq

/-- Line 95–101 of `loadData`: `rank: Number(x.rank) || (i+1)` (both `NaN` and
`0` are falsy, so they default to the 1-based position `i+1`),
`university: fmt(x.university || x.name || '')`, `country: fmt(x.country || '')`,
`score` kept unless absent/null. -/
def normEntry (i : Nat) (x : RawEntry) : RankingEntry :=
  { rank := match x.rankNum with
      | none => (i : Int) + 1
      | some n => if n = 0 then (i : Int) + 1 else n
    university := if x.university = "" then (if x.name = "" then "" else x.name) else x.university
    country := x.country
    score := x.score
    raw := x }

/-- Helper for `loadData`: map `normEntry` with a running 0-based index. -/
def loadDataFrom (i : Nat) : List RawEntry → List RankingEntry
  | [] => []
  | x :: xs => normEntry i x :: loadDataFrom (i + 1) xs

/-- The normalization loop of `loadData` (line 95: `arr.map((x,i) => ...)`). -/
def loadData (arr : List RawEntry) : List RankingEntry :=
  loadDataFrom 0 arr

/-! ## Query engine: input coercion -/

/-- The raw values read from the five filter inputs at the top of `applyAll`
(lines 187–191), before any coercion. -/
structure RawQuery where
  search : String
  country : String
  rankMin : String
  rankMax : String
  sortVal : String
deriving DecidableEq

/-- JS `String.prototype.trim`, on char lists. -/
def trimChars (cs : List Char) : List Char :=
  ((cs.dropWhile Char.isWhitespace).reverse.dropWhile Char.isWhitespace).reverse

/-- JS `String.prototype.trim`. -/
def jsTrim (s : String) : String := ⟨trimChars s.data⟩

/-- JS `String.prototype.toLowerCase` (ASCII range, which is all the code
relies on). -/
def jsToLower (s : String) : String := ⟨s.data.map Char.toLower⟩

/-- Numeric value of a run of decimal digit characters. -/
def digitsVal (ds : List Char) : Nat :=
  ds.foldl (fun a c => a * 10 + (c.toNat - 48)) 0

/-- JS `parseInt` on a decimal string: skip leading whitespace, optional sign,
then a maximal run of decimal digits; `none` models `NaN` (no digits at all). -/
def jsParseInt (s : String) : Option Int :=
  let cs := s.data.dropWhile Char.isWhitespace
  match cs with
  | '-' :: rest =>
    let ds := rest.takeWhile Char.isDigit
    if ds = [] then none else some (-(digitsVal ds : Int))
  | '+' :: rest =>
    let ds := rest.takeWhile Char.isDigit
    if ds = [] then none else some (digitsVal ds : Int)
  | _ =>
    let ds := cs.takeWhile Char.isDigit
    if ds = [] then none else some (digitsVal ds : Int)

/-- Lines 189–190: `parseInt(el.value) || null` — both `NaN` and `0` are falsy
and coerce to `null` (`none`); any other parsed value is kept. -/
def coerceBound (s : String) : Option Int :=
  match jsParseInt s with
  | none => none
  | some n => if n = 0 then none else some n

/-- The coerced query specification actually consulted by the filter and sort
(lines 187–191): `q` is the trimmed, lowercased search text; `min`/`max` are
the coerced rank bounds; `sortVal` defaults to `rank-asc`. -/
structure QuerySpec where
  q : String
  country : String
  min : Option Int
  max : Option Int
  sortVal : String

/-- Lines 187–191 of `applyAll`: build the `QuerySpec` from the raw inputs. -/
def mkSpec (r : RawQuery) : QuerySpec :=
  { q := jsToLower (jsTrim r.search)
    country := r.country
    min := coerceBound r.rankMin
    max := coerceBound r.rankMax
    sortVal := if r.sortVal = "" then "rank-asc" else r.sortVal }

/-! ## Query engine: filter -/

/-- Does `hay` start with `needle`? -/
def startsWithL : List Char → List Char → Bool
  | _, [] => true
  | [], _ :: _ => false
  | c :: cs, d :: ds => c = d && startsWithL cs ds

/-- JS `hay.includes(needle)` on char lists (contiguous substring test). -/
def includesL (needle : List Char) : List Char → Bool
  | [] => startsWithL [] needle
  | c :: cs => startsWithL (c :: cs) needle || includesL needle cs

/-- Lines 195–198: free-text test against the lowercased
`` `${item.university} ${item.country}` `` haystack (skipped when `q` is
empty). -/
def textPass (q : String) (item : RankingEntry) : Bool :=
  if q = "" then true
  else includesL q.data (jsToLower (item.university ++ " " ++ item.country)).data

/-- Line 199: exact country equality (skipped when the filter is empty). -/
def countryPass (country : String) (item : RankingEntry) : Bool :=
  if country = "" then true else decide (item.country = country)

/-- Line 200: `if(min && item.rank < min) return false` — `min` is tested for
JS truthiness, so `null` and `0` disable the bound. -/
def minPass (min : Option Int) (rank : Int) : Bool :=
  match min with
  | none => true
  | some m => if m = 0 then true else !(decide (rank < m))

/-- Line 201: `if(max && item.rank > max) return false`. -/
def maxPass (max : Option Int) (rank : Int) : Bool :=
  match max with
  | none => true
  | some m => if m = 0 then true else !(decide (rank > m))

/-- The filter predicate of lines 194–203 (all four tests must pass). -/
def passFilter (spec : QuerySpec) (item : RankingEntry) : Bool :=
  textPass spec.q item && countryPass spec.country item &&
    minPass spec.min item.rank && maxPass spec.max item.rank

/-! ## Query engine: sort -/

/-- `(x.score || 0)`: an absent (`null`) score is treated as `0` (line
210–211). -/
def scoreOr0 (e : RankingEntry) : Int := e.score.getD 0

/-- Model of `String.prototype.localeCompare`, as code-point lexicographic
comparison (the claims under verification do not depend on locale tables). -/
def localeCmp (a b : String) : Int :=
  if a < b then -1 else if b < a then 1 else 0

/-- The comparator of `state.visible.sort` (lines 206–217). -/
def jsCmp (sortVal : String) (a b : RankingEntry) : Int :=
  if sortVal = "rank-asc" then a.rank - b.rank
  else if sortVal = "rank-desc" then b.rank - a.rank
  else if sortVal = "score-asc" then scoreOr0 a - scoreOr0 b
  else if sortVal = "score-desc" then scoreOr0 b - scoreOr0 a
  else if sortVal = "name-asc" then localeCmp a.university b.university
  else if sortVal = "name-desc" then localeCmp b.university a.university
  else if sortVal = "country-asc" then localeCmp a.country b.country
  else a.rank - b.rank

/-- The comparator as a boolean "sorts no later than" relation. -/
def jsLe (sortVal : String) (a b : RankingEntry) : Bool :=
  decide (jsCmp sortVal a b ≤ 0)

/-- `Array.prototype.sort` with the comparator of lines 206–217; stable per
ECMA-262, hence modelled by merge sort. -/
def jsSort (sortVal : String) (l : List RankingEntry) : List RankingEntry :=
  l.mergeSort (jsLe sortVal)

/-- Lines 186–217 of `applyAll`: coerce the raw inputs, filter, then sort.
Rendering (lines 220–221) is outside the model. -/
def applyAll (records : List RankingEntry) (r : RawQuery) : List RankingEntry :=
  jsSort (mkSpec r).sortVal (records.filter (passFilter (mkSpec r)))

/-! ## Persistence layer -/

/-- A rating aggregate `{ sum, count }` (created at line 350). -/
structure Agg where
  sum : Int
  count : Int
deriving DecidableEq

/-- A note object as built in `saveNote` (line 379/391):
`{ name, univ, text, rating, ts }`; `rating = none` models `null`. -/
structure Note where
  name : String
  univ : String
  text : String
  rating : Option Int
  ts : Int
deriving DecidableEq

/-- The two pieces of durable local state, after JSON decoding: the ratings
map under `ediguide_ratings_v1` (a JS object, modelled as a partial map from
university key to aggregate) and the notes array under `ediguide_notes_v1`. -/
structure Store where
  ratings : String → Option Agg
  notes : List Note

/-- Lines 348–354, `saveRating(univ, value)`: read the map, create
`{ sum: 0, count: 0 }` if the key is absent, then add `value` to `sum` and `1`
to `count`, and write the map back.  (JSON round-tripping through
`localStorage` is modelled as the identity.) -/
def saveRating (st : Store) (univ : String) (value : Int) : Store :=
  let cur := (st.ratings univ).getD ⟨0, 0⟩
  { st with
    ratings := fun k =>
      if k = univ then some ⟨cur.sum + value, cur.count + 1⟩ else st.ratings k }

/-- A sequence of `saveRating` calls for one university key, in list order. -/
def applyVotes (st : Store) (univ : String) (vs : List Int) : Store :=
  vs.foldl (fun s v => saveRating s univ v) st

/-- The aggregate currently stored for a key, with `{sum 0, count 0}` when the
key is absent (the value `saveRating` starts from at line 350). -/
def getAgg (st : Store) (univ : String) : Agg :=
  (st.ratings univ).getD ⟨0, 0⟩

/-- JS `v || dflt` for an optional stored string: `null` (absent key) and the
empty string are falsy. -/
def jsOr (v : Option String) (dflt : String) : String :=
  match v with
  | none => dflt
  | some s => if s = "" then dflt else s

/-- Lines 338–344, `loadRatings`: `JSON.parse(stored || '\x7b\x7d')` inside
`try/catch`, returning the empty object on any parse failure.  `JSON.parse`
is external; it is passed in as a function whose `none` result models a thrown
exception. -/
def loadRatings (parse : String → Option (String → Option Agg))
    (stored : Option String) : String → Option Agg :=
  match parse (jsOr stored "\x7b\x7d") with
  | some m => m
  | none => fun _ => none

/-- Lines 359–365, `loadNotes`: `JSON.parse(stored || '[]')` inside
`try/catch`, returning the empty array on any parse failure. -/
def loadNotes (parse : String → Option (List Note))
    (stored : Option String) : List Note :=
  match parse (jsOr stored "[]") with
  | some l => l
  | none => []

/-! ## CSV export

Decimal digit printing is defined with explicit fuel so that every definition
is structurally recursive (JS stringifies an integral number as its plain
decimal digits). -/

/-- The character for a decimal digit value. -/
def digitChar (d : Nat) : Char := Char.ofNat (48 + d)

/-- Decimal digits of `n`, most significant first, given enough fuel. -/
def natDigitsAux : Nat → Nat → List Char
  | 0, _ => []
  | fuel + 1, n =>
    if n < 10 then [digitChar n]
    else natDigitsAux fuel (n / 10) ++ [digitChar (n % 10)]

/-- Decimal digits of a natural number (`String(n)` for `n ≥ 0`). -/
def natDigits (n : Nat) : List Char := natDigitsAux (n + 1) n

/-- JS number-to-string conversion for an integral value. -/
def intToDecChars (n : Int) : List Char :=
  if n < 0 then '-' :: natDigits (-n).toNat else natDigits n.toNat

/-- Double every `"` character (line 435/436: `.replace(/"/g,'""')`). -/
def escQ : List Char → List Char
  | [] => []
  | c :: cs => if c = '"' then '"' :: '"' :: escQ cs else c :: escQ cs

/-- Wrap a field in double quotes with embedded quotes doubled
(`'"' + String(v).replace(/"/g,'""') + '"'`). -/
def quoteF (s : String) : List Char :=
  '"' :: (escQ s.data ++ ['"'])

/-- Line 437: the score field, `r.score !== null ? r.score : ''`. -/
def scoreChars (sc : Option Int) : List Char :=
  match sc with
  | none => []
  | some s => intToDecChars s

/-- One CSV record (lines 433–438): `rank`, quoted `university`, quoted
`country`, and `score` or the empty field, joined with commas. -/
def csvLine (r : RankingEntry) : List Char :=
  intToDecChars r.rank ++
    ',' :: (quoteF r.university ++
      ',' :: (quoteF r.country ++
        ',' :: scoreChars r.score))

/-- The fixed header row (line 430). -/
def headerChars : List Char := "rank,university,country,score".data

/-- `lines.join(sep)` for a one-character separator. -/
def joinSep (sep : Char) : List (List Char) → List Char
  | [] => []
  | [l] => l
  | l :: l2 :: ls => l ++ sep :: joinSep sep (l2 :: ls)

/-- `lines.join('\n')` (line 441). -/
def joinNL (lines : List (List Char)) : List Char := joinSep '\n' lines

/-- Lines 428–441, `exportToCSV`: `none` models the guarded no-op on an empty
view (line 429); otherwise the produced CSV text (header row, then one record
per row in view order, joined with `\n`). -/
def exportToCSV (rows : List RankingEntry) : Option String :=
  if rows = [] then none
  else some ⟨joinNL (headerChars :: rows.map csvLine)⟩

/-! ## CSV reading (for the round-trip property)

Modelled from the spec: the source ships no CSV reader, and §8 of the spec
states "parsing the exported CSV recovers rank/university/country/score for
every row".  The reader below is a standard quote-aware CSV parse: split into
records and fields at separators that are outside double quotes, then strip
the quoting and undouble embedded quote characters. -/

/-- In-quotes state after scanning `cs` starting from state `b` (a `"`
character toggles the state). -/
def scanQ : List Char → Bool → Bool
  | [], b => b
  | c :: cs, b => scanQ cs (if c = '"' then !b else b)

/-- Does `cs` contain `sep` at quote-level zero, starting from state `b`? -/
def hasTopSep (sep : Char) : List Char → Bool → Bool
  | [], _ => false
  | c :: cs, b =>
    if c = '"' then hasTopSep sep cs (!b)
    else ((decide (c = sep) && !b) || hasTopSep sep cs b)

/-- Split on `sep` at quote-level zero; `acc` is the reversed current chunk. -/
def splitTopAux (sep : Char) : List Char → Bool → List Char → List (List Char)
  | [], _, acc => [acc.reverse]
  | c :: cs, b, acc =>
    if c = '"' then splitTopAux sep cs (!b) (c :: acc)
    else if c = sep && !b then acc.reverse :: splitTopAux sep cs b []
    else splitTopAux sep cs b (c :: acc)

/-- Split a text on `sep` occurrences that are outside double quotes. -/
def splitTop (sep : Char) (cs : List Char) : List (List Char) :=
  splitTopAux sep cs false []

/-- Parse the body of a quoted field after its opening quote: undouble `""`
and require the closing quote to be the final character. -/
def unqAux : List Char → Option (List Char)
  | [] => none
  | ['"'] => some []
  | '"' :: d :: rest => if d = '"' then (unqAux rest).map (fun t => '"' :: t) else none
  | c :: rest => (unqAux rest).map (fun t => c :: t)

/-- Parse one quoted CSV field. -/
def unquoteF (cs : List Char) : Option String :=
  match cs with
  | '"' :: rest => (unqAux rest).map (fun l => ⟨l⟩)
  | _ => none

/-- Parse a decimal integer field (digits with an optional leading minus). -/
def decToInt (cs : List Char) : Option Int :=
  match cs with
  | '-' :: ds => if ds ≠ [] ∧ ds.all Char.isDigit then some (-(digitsVal ds : Int)) else none
  | ds => if ds ≠ [] ∧ ds.all Char.isDigit then some (digitsVal ds : Int) else none

/-- The data recovered from one CSV record: rank, university, country,
optional score. -/
def parseCsvLine (cs : List Char) : Option (Int × String × String × Option Int) :=
  match splitTop ',' cs with
  | [f1, f2, f3, f4] =>
    match decToInt f1, unquoteF f2, unquoteF f3 with
    | some rk, some u, some c =>
      if f4 = [] then some (rk, u, c, none)
      else (decToInt f4).map (fun sc => (rk, u, c, some sc))
    | _, _, _ => none
  | _ => none

/-- Parse every record of the body, failing if any record fails. -/
def parseLines : List (List Char) → Option (List (Int × String × String × Option Int))
  | [] => some []
  | l :: ls =>
    match parseCsvLine l, parseLines ls with
    | some r, some rs => some (r :: rs)
    | _, _ => none

/-- Parse a whole CSV text: quote-aware split into records, check the header,
parse each remaining record. -/
def parseCsv (s : String) : Option (List (Int × String × String × Option Int)) :=
  match splitTop '\n' s.data with
  | [] => none
  | h :: rest => if h = headerChars then parseLines rest else none

/-- The row data of an entry that the CSV is expected to carry. -/
def entryRow (r : RankingEntry) : Int × String × String × Option Int :=
  (r.rank, r.university, r.country, r.score)

/-! ## HTML escaping and rendering -/

/-- The per-character replacement of line 458:
`'&' → '&amp;'`, `'<' → '&lt;'`, `'>' → '&gt;'`, `'"' → '&quot;'`,
apostrophe `→ '&#39;'`, anything else kept. -/
def escChar (c : Char) : List Char :=
  if c = '&' then "&amp;".data
  else if c = '<' then "&lt;".data
  else if c = '>' then "&gt;".data
  else if c = '"' then "&quot;".data
  else if c = Char.ofNat 39 then "&#39;".data
  else [c]

/-- Concatenated per-character expansion (the global regex replace of line
458 substitutes each matched character independently). -/
def concatMapChars (f : Char → List Char) : List Char → List Char
  | [] => []
  | c :: cs => f c ++ concatMapChars f cs

/-- Lines 456–459, `escapeHtml`: falsy input (`null`, `undefined`, `''`)
yields `''`; otherwise each of the five special characters is replaced by its
entity. -/
def escapeHtml (v : Option String) : String :=
  match v with
  | none => ""
  | some s => if s = "" then "" else ⟨concatMapChars escChar s.data⟩

/-- Inverse entity reading used to state that escaping loses nothing: each of
the five entities produced by `escChar` maps back to its character, all other
characters are copied. -/
def unescapeHtml : List Char → List Char
  | '&' :: 'a' :: 'm' :: 'p' :: ';' :: rest => '&' :: unescapeHtml rest
  | '&' :: 'l' :: 't' :: ';' :: rest => '<' :: unescapeHtml rest
  | '&' :: 'g' :: 't' :: ';' :: rest => '>' :: unescapeHtml rest
  | '&' :: 'q' :: 'u' :: 'o' :: 't' :: ';' :: rest => '"' :: unescapeHtml rest
  | '&' :: '#' :: '3' :: '9' :: ';' :: rest => Char.ofNat 39 :: unescapeHtml rest
  | c :: rest => c :: unescapeHtml rest
  | [] => []

/-- Occurrences of a character in a char list. -/
def countChar (c : Char) : List Char → Nat
  | [] => 0
  | d :: ds => (if d = c then 1 else 0) + countChar c ds

/-- Occurrences of a character in a string. -/
def countCharS (c : Char) (s : String) : Nat := countChar c s.data

/-- Modelled from the spec: stand-in for `new Date(ts).toLocaleString()`
(line 419), an external platform call.  Only its character repertoire
matters for the properties below: a locale date string carries no markup
characters, modelled here by decimal digits. -/
def jsDateString (ts : Int) : String := ⟨intToDecChars ts⟩

/-- JS truthiness of the optional average (`0` is falsy). -/
def avgTruthy : Option Rat → Bool
  | none => false
  | some q => decide (q ≠ 0)

/-- Model of `Number.prototype.toFixed(1)` (line 331): the value written with
one decimal digit.  The claims below rely only on the characters used, not on
the rounding mode. -/
def ratFixed1 (q : Rat) : String :=
  let n : Int := ⌊q * 10 + 1 / 2⌋
  ⟨intToDecChars (n / 10) ++ '.' :: natDigits (n % 10).toNat⟩

/-- Line 327: class `star active` when the average is truthy and at least
`i - 0.25`, else `star`. -/
def starCls (avg : Option Rat) (i : Nat) : String :=
  if avgTruthy avg && decide ((i : Rat) - 1 / 4 ≤ avg.getD 0) then "star active" else "star"

/-- Line 328: one star `<span>` of the widget. -/
def starSpan (avg : Option Rat) (i : Nat) : String :=
  "<span class=\"" ++ starCls avg i ++ "\" data-value=\"" ++ ⟨natDigits i⟩ ++ "\">★</span>"

/-- Lines 323–333, `renderStars`: five stars plus either the average to one
decimal or the `(no ratings)` tag. -/
def renderStars (avg : Option Rat) : String :=
  "<span class=\"stars\" aria-hidden=\"true\">" ++
    starSpan avg 1 ++ starSpan avg 2 ++ starSpan avg 3 ++ starSpan avg 4 ++ starSpan avg 5 ++
    "</span>" ++
    (if avgTruthy avg then "<span class=\"kv\"> " ++ ratFixed1 (avg.getD 0) ++ "</span>"
     else "<span class=\"kv\"> (no ratings)</span>")

/-- JS truthiness of a note's optional numeric rating (`null` and `0` falsy,
line 420). -/
def ratingTruthy : Option Int → Bool
  | none => false
  | some n => decide (n ≠ 0)

/-- `'★'.repeat(n.rating)` (line 420). -/
def starRepeat (rating : Option Int) : String :=
  ⟨List.replicate (rating.getD 0).toNat '★'⟩

/-- Lines 417–422: the HTML fragment rendered for one note; every
user-supplied string passes through `escapeHtml`, the timestamp through the
date formatter. -/
def noteHtml (n : Note) : String :=
  "\n    <div class=\"note\">\n      <div class=\"meta\">" ++
    escapeHtml (some n.name) ++ " " ++
    (if n.univ = "" then "" else "— " ++ escapeHtml (some n.univ)) ++
    " <span class=\"kv\">(" ++ jsDateString n.ts ++ ")</span></div>\n      <div class=\"body\">" ++
    escapeHtml (some n.text) ++ " " ++
    (if ratingTruthy n.rating then
      "<div class=\"kv\">Rating: " ++ starRepeat n.rating ++ "</div>"
     else "") ++
    "</div>\n    </div>\n  "

/-- Lines 411–423, `renderNotesList`: the placeholder paragraph for an empty
list, else the per-note fragments joined with `''`. -/
def renderNotesList (arr : List Note) : String :=
  if arr = [] then
    "<p class=\"kv\">No notes yet. Notes are stored locally in this browser only.</p>"
  else String.join (arr.map noteHtml)

/-- Line 273: the rank cell. -/
def rankCellOf (item : RankingEntry) : String :=
  "<td><span class=\"rank-badge\">" ++ ⟨intToDecChars item.rank⟩ ++ "</span></td>"

/-- Lines 276–279: the university cell (title and subtitle both escaped). -/
def uniCellOf (item : RankingEntry) : String :=
  "<td>\n      <span class=\"univ-title\">" ++ escapeHtml (some item.university) ++
    "</span>\n      <span class=\"univ-sub\">" ++ escapeHtml (some item.university) ++
    "</span>\n    </td>"

/-- Line 282: the country cell. -/
def countryCellOf (item : RankingEntry) : String :=
  "<td>" ++ escapeHtml (some item.country) ++ "</td>"

/-- Line 285: the score cell (`—` when the score is `null`). -/
def scoreCellOf (item : RankingEntry) : String :=
  "<td>" ++ (match item.score with | some s => (⟨intToDecChars s⟩ : String) | none => "—") ++ "</td>"

/-- Line 288: the fixed ad placeholder cell. -/
def adCellOf : String :=
  "<td><div class=\"ad-inner\" style=\"padding:6px 8px; border-radius:6px;\">Ad slot</div></td>"

/-- Lines 291–293: the rating cell, with the average of the stored aggregate
(`null` when none is stored). -/
def ratingCellOf (item : RankingEntry) (ratings : String → Option Agg) : String :=
  "<td class=\"rating-cell\" data-univ=\"" ++ escapeHtml (some item.university) ++ "\">" ++
    renderStars (match ratings item.university with
                 | none => none
                 | some a => some ((a.sum : Rat) / (a.count : Rat))) ++
    "</td>"

/-- Lines 296–298: the notes-count cell. -/
def notesCellOf (item : RankingEntry) (notes : List Note) : String :=
  "<td>" ++
    (let nCount := (notes.filter (fun n => n.univ = item.university)).length
     if nCount = 0 then "-"
     else (⟨natDigits nCount⟩ : String) ++ " note" ++ (if nCount > 1 then "s" else "")) ++
    "</td>"

/-- Line 300: the HTML of one table row. -/
def rowHtml (item : RankingEntry) (ratings : String → Option Agg) (notes : List Note) : String :=
  rankCellOf item ++ uniCellOf item ++ countryCellOf item ++ scoreCellOf item ++
    adCellOf ++ ratingCellOf item ratings ++ notesCellOf item notes

/-! ## Sample data used to instantiate theorems on concrete inputs -/

/-- First record of the scenario in §8 of the spec. -/
def sampleRawA : RawEntry := ⟨some 1, "A U", "", "X", some 90⟩

/-- Second record of the scenario in §8 of the spec. -/
def sampleRawB : RawEntry := ⟨some 2, "B U", "", "Y", some 80⟩

/-- Two entries sharing a rank, to exercise sort stability on a tie. -/
def tieA : RankingEntry := ⟨1, "A U", "X", some 90, sampleRawA⟩

/-- Second entry of the tie pair. -/
def tieB : RankingEntry := ⟨1, "B U", "Y", none, sampleRawB⟩

/-- An empty store (no ratings, no notes). -/
def emptyStore : Store := ⟨fun _ => none, []⟩

/-- The normalized first scenario record. -/
def sampleA : RankingEntry := ⟨1, "A U", "X", some 90, sampleRawA⟩

/-- The normalized second scenario record. -/
def sampleB : RankingEntry := ⟨2, "B U", "Y", some 80, sampleRawB⟩

/-! ## Theorems -/

theorem saveRating_ratings_self (st : Store) (u : String) (v : Int) :
    (saveRating st u v).ratings u = some ⟨(getAgg st u).sum + v, (getAgg st u).count + 1⟩ := by
  simp [saveRating, getAgg]

theorem getAgg_saveRating_self (st : Store) (u : String) (v : Int) :
    getAgg (saveRating st u v) u = ⟨(getAgg st u).sum + v, (getAgg st u).count + 1⟩ := by
  simp [getAgg, saveRating]

theorem applyVotes_cons (st : Store) (u : String) (v : Int) (tl : List Int) :
    applyVotes st u (v :: tl) = applyVotes (saveRating st u v) u tl := rfl

theorem applyVotes_ratings_eq (u : String) (vs : List Int) :
    ∀ st : Store,
      (applyVotes st u vs).ratings u =
        if vs = [] then st.ratings u
        else some ⟨(getAgg st u).sum + vs.sum, (getAgg st u).count + vs.length⟩ := by
  induction vs with
  | nil => intro st; simp [applyVotes]
  | cons v tl ih =>
    intro st
    rw [applyVotes_cons, ih]
    by_cases htl : tl = []
    · subst htl
      simp [saveRating_ratings_self, Agg.mk.injEq]
    · simp only [htl, ite_false, getAgg_saveRating_self, List.sum_cons,
        List.length_cons, if_neg (List.cons_ne_nil v tl), Option.some.injEq, Agg.mk.injEq]
      refine ⟨by ring, by push_cast; ring⟩

/-- C4: `saveRating` creates `{sum: value, count: 1}` for an absent key and
otherwise adds `value` to `sum` and `1` to `count`; its effect on a key's
aggregate is invariant under reordering and batching of the same votes, and
votes `[3,5]` then `[4]` give the same aggregate `{sum:12, count:3}` as
`[3,5,4]` in one batch, from any starting map. -/
theorem saveRating_aggregate_spec :
    (∀ (st : Store) (u : String) (v : Int), st.ratings u = none →
      (saveRating st u v).ratings u = some ⟨v, 1⟩) ∧
    (∀ (st : Store) (u : String) (v : Int) (a : Agg), st.ratings u = some a →
      (saveRating st u v).ratings u = some ⟨a.sum + v, a.count + 1⟩) ∧
    (∀ (st : Store) (u : String) (vs vs' : List Int), vs.Perm vs' →
      (applyVotes st u vs).ratings u = (applyVotes st u vs').ratings u) ∧
    (∀ (st : Store) (u : String) (l1 l2 : List Int),
      applyVotes (applyVotes st u l1) u l2 = applyVotes st u (l1 ++ l2)) ∧
    (∀ (st : Store) (u : String), st.ratings u = none →
      (applyVotes (applyVotes st u [3, 5]) u [4]).ratings u = some ⟨12, 3⟩ ∧
      (applyVotes st u [3, 5, 4]).ratings u = some ⟨12, 3⟩) := by
  refine ⟨?_, ?_, ?_, ?_, ?_⟩
  · intro st u v h
    rw [saveRating_ratings_self]
    simp [getAgg, h]
  · intro st u v a h
    rw [saveRating_ratings_self]
    simp [getAgg, h]
  · intro st u vs vs' hp
    rw [applyVotes_ratings_eq, applyVotes_ratings_eq]
    by_cases hnil : vs = []
    · subst hnil
      have : vs' = [] := hp.symm.eq_nil
      simp [this]
    · have hnil' : vs' ≠ [] := fun h => hnil ((h ▸ hp).eq_nil)
      simp [hnil, hnil', hp.sum_eq, hp.length_eq]
  · intro st u l1 l2
    simp [applyVotes, List.foldl_append]
  · intro st u h
    constructor
    · rw [applyVotes_ratings_eq]
      simp only [List.cons_ne_self, ite_false]
      have h2 : (applyVotes st u [3, 5]).ratings u = some ⟨8, 2⟩ := by
        rw [applyVotes_ratings_eq]
        simp [getAgg, h]
      simp [getAgg, h2]
    · rw [applyVotes_ratings_eq]
      simp [getAgg, h]

theorem saveRating_aggregate_spec_witness :
    (applyVotes (applyVotes emptyStore "A U" [3, 5]) "A U" [4]).ratings "A U" = some ⟨12, 3⟩ ∧
    (applyVotes emptyStore "A U" [3, 5, 4]).ratings "A U" = some ⟨12, 3⟩ :=
  saveRating_aggregate_spec.2.2.2.2 emptyStore "A U" rfl

/-- C9: a `saveRating(univ, value)` call changes at most the aggregate stored
under key `univ`: every other key of the ratings map reads back unchanged, and
the stored notes sequence is untouched. -/
theorem saveRating_frame :
    (∀ (st : Store) (u : String) (v : Int) (k : String), k ≠ u →
      (saveRating st u v).ratings k = st.ratings k) ∧
    (∀ (st : Store) (u : String) (v : Int), (saveRating st u v).notes = st.notes) := by
  constructor
  · intro st u v k hk
    simp [saveRating, hk]
  · intro st u v
    rfl

theorem saveRating_frame_witness :
    (saveRating emptyStore "A U" 5).ratings "B U" = emptyStore.ratings "B U" ∧
    (saveRating emptyStore "A U" 5).notes = emptyStore.notes :=
  ⟨saveRating_frame.1 emptyStore "A U" 5 "B U" (by decide), saveRating_frame.2 emptyStore "A U" 5⟩

/-- C7: the ratings and notes read paths never propagate a failure: when the
stored value parses, its value is returned, and when parsing fails (a corrupt
or unparsable stored value, modelled as the parse function returning `none`),
`loadRatings` returns the empty map and `loadNotes` the empty sequence. -/
theorem loadState_fail_soft :
    (∀ (parse : String → Option (String → Option Agg)) (stored : Option String),
      parse (jsOr stored "\x7b\x7d") = none →
      loadRatings parse stored = fun _ => none) ∧
    (∀ (parse : String → Option (String → Option Agg)) (stored : Option String)
      (m : String → Option Agg),
      parse (jsOr stored "\x7b\x7d") = some m → loadRatings parse stored = m) ∧
    (∀ (parse : String → Option (List Note)) (stored : Option String),
      parse (jsOr stored "[]") = none → loadNotes parse stored = []) ∧
    (∀ (parse : String → Option (List Note)) (stored : Option String) (l : List Note),
      parse (jsOr stored "[]") = some l → loadNotes parse stored = l) := by
  refine ⟨?_, ?_, ?_, ?_⟩ <;> intro parse stored
  · intro h; simp [loadRatings, h]
  · intro m h; simp [loadRatings, h]
  · intro h; simp [loadNotes, h]
  · intro l h; simp [loadNotes, h]

theorem loadState_fail_soft_witness :
    loadRatings (fun _ => none) (some "garbage") = (fun _ => none) ∧
    loadNotes (fun _ => none) (some "garbage") = [] :=
  ⟨loadState_fail_soft.1 (fun _ => none) (some "garbage") rfl,
   loadState_fail_soft.2.2.1 (fun _ => none) (some "garbage") rfl⟩

/-- C6 counterexample: the claim "rank is an integer ≥ 1, defaulting to `i+1`
when the supplied rank is absent or invalid" fails on the code: a supplied
negative rank is truthy after `Number(...)`, so `Number(x.rank) || (i+1)`
keeps it, producing a normalized rank of `-5 < 1`. -/
theorem loadData_rank_min_counterexample :
    loadData [⟨some (-5), "U", "", "C", none⟩] =
      [⟨-5, "U", "C", none, ⟨some (-5), "U", "", "C", none⟩⟩] ∧
    ¬ (∀ (arr : List RawEntry), ∀ e ∈ loadData arr, 1 ≤ e.rank) := by
  refine ⟨by decide, fun h => ?_⟩
  have := h [⟨some (-5), "U", "", "C", none⟩]
    ⟨-5, "U", "C", none, ⟨some (-5), "U", "", "C", none⟩⟩ (by decide)
  exact absurd this (by decide)

theorem loadDataFrom_getElem (arr : List RawEntry) :
    ∀ (k i : Nat), (loadDataFrom k arr)[i]? = (arr[i]?).map (fun x => normEntry (k + i) x) := by
  induction arr with
  | nil => intro k i; simp [loadDataFrom]
  | cons x xs ih =>
    intro k i
    cases i with
    | zero => simp [loadDataFrom]
    | succ j =>
      have h := ih (k + 1) j
      have harith : k + 1 + j = k + (j + 1) := by omega
      simp only [loadDataFrom, List.getElem?_cons_succ, h, harith]

/-- C6 amended: `loadData` maps the element at 0-based position `i` to an
entry whose rank defaults to `i+1` exactly when the supplied rank is absent,
non-numeric, or zero, and otherwise keeps the supplied numeric rank as-is
(so a negative supplied rank is kept and `rank ≥ 1` is not guaranteed); the
university falls back from `university` to the legacy `name` field to the
empty string, and the score is absent exactly when the supplied score is
absent. -/
theorem loadData_normalization :
    ∀ (arr : List RawEntry) (i : Nat) (x : RawEntry), arr[i]? = some x →
      (loadData arr)[i]? = some (normEntry i x) ∧
      ((x.rankNum = none ∨ x.rankNum = some 0) → (normEntry i x).rank = (i : Int) + 1) ∧
      (∀ n : Int, x.rankNum = some n → n ≠ 0 → (normEntry i x).rank = n) ∧
      ((normEntry i x).university =
        if x.university = "" then (if x.name = "" then "" else x.name) else x.university) ∧
      ((normEntry i x).score = none ↔ x.score = none) := by
  intro arr i x hx
  refine ⟨?_, ?_, ?_, rfl, Iff.rfl⟩
  · rw [loadData, loadDataFrom_getElem, hx]
    simp
  · rintro (h | h) <;> simp [normEntry, h]
  · intro n hn hne
    simp [normEntry, hn, hne]

theorem loadData_normalization_witness :
    (loadData [⟨none, "", "Uni", "C", none⟩])[0]? =
      some (normEntry 0 ⟨none, "", "Uni", "C", none⟩) ∧
    (normEntry 0 ⟨none, "", "Uni", "C", none⟩).rank = (0 : Int) + 1 :=
  ⟨(loadData_normalization [⟨none, "", "Uni", "C", none⟩] 0 ⟨none, "", "Uni", "C", none⟩ rfl).1,
   (loadData_normalization [⟨none, "", "Uni", "C", none⟩] 0 ⟨none, "", "Uni", "C", none⟩ rfl).2.1
     (Or.inl rfl)⟩

/-! ### Query engine -/

theorem localeCmp_le_zero (a b : String) : localeCmp a b ≤ 0 ↔ a ≤ b := by
  unfold localeCmp
  split_ifs with h1 h2
  · exact iff_of_true (by norm_num) (le_of_lt h1)
  · exact iff_of_false (by norm_num) (not_le.mpr h2)
  · exact iff_of_true le_rfl (le_of_not_lt h2)

theorem jsLe_trans (sv : String) :
    ∀ a b c : RankingEntry, jsLe sv a b → jsLe sv b c → jsLe sv a c := by
  intro a b c h1 h2
  simp only [jsLe, decide_eq_true_eq] at h1 h2 ⊢
  unfold jsCmp at h1 h2 ⊢
  split_ifs at h1 h2 ⊢ <;>
    first
      | omega
      | (rw [localeCmp_le_zero] at h1 h2 ⊢; exact le_trans h1 h2)
      | (rw [localeCmp_le_zero] at h1 h2 ⊢; exact le_trans h2 h1)

theorem jsLe_total (sv : String) :
    ∀ a b : RankingEntry, jsLe sv a b || jsLe sv b a := by
  intro a b
  simp only [jsLe, Bool.or_eq_true, decide_eq_true_eq]
  unfold jsCmp
  split_ifs <;>
    first
      | omega
      | (rw [localeCmp_le_zero, localeCmp_le_zero]; exact le_total _ _)

theorem startsWithL_iff : ∀ (hay needle : List Char),
    startsWithL hay needle = true ↔ ∃ t, hay = needle ++ t := by
  intro hay needle
  induction needle generalizing hay with
  | nil => cases hay <;> simp [startsWithL]
  | cons d ds ih =>
    cases hay with
    | nil => simp [startsWithL]
    | cons c cs =>
      simp only [startsWithL, Bool.and_eq_true, decide_eq_true_eq, ih, List.cons_append,
        List.cons.injEq]
      aesop

theorem includesL_iff (needle : List Char) : ∀ hay : List Char,
    includesL needle hay = true ↔ ∃ s t, hay = s ++ needle ++ t := by
  intro hay
  induction hay with
  | nil =>
    rw [includesL, startsWithL_iff]
    constructor
    · rintro ⟨t, ht⟩
      exact ⟨[], t, by simpa using ht⟩
    · rintro ⟨s, t, ht⟩
      have h := ht.symm
      simp only [List.append_assoc, List.append_eq_nil] at h
      exact ⟨t, by simp [h.1, h.2.1, h.2.2]⟩
  | cons c cs ih =>
    rw [includesL]
    simp only [Bool.or_eq_true, startsWithL_iff, ih]
    constructor
    · rintro (⟨t, ht⟩ | ⟨s, t, ht⟩)
      · exact ⟨[], t, by simpa using ht⟩
      · exact ⟨c :: s, t, by simp [ht]⟩
    · rintro ⟨s, t, ht⟩
      cases s with
      | nil => exact Or.inl ⟨t, by simpa using ht⟩
      | cons c2 s2 =>
        right
        simp only [List.cons_append, List.cons.injEq] at ht
        exact ⟨s2, t, ht.2⟩

theorem coerceBound_ne_zero {s : String} {n : Int} (h : coerceBound s = some n) : n ≠ 0 := by
  unfold coerceBound at h
  cases hj : jsParseInt s with
  | none => rw [hj] at h; simp at h
  | some m =>
    rw [hj] at h
    by_cases hm : m = 0
    · simp [hm] at h
    · simp [hm] at h
      exact h ▸ hm

theorem mem_applyAll {e : RankingEntry} {records : List RankingEntry} {r : RawQuery} :
    e ∈ applyAll records r ↔ e ∈ records ∧ passFilter (mkSpec r) e = true := by
  unfold applyAll jsSort
  rw [List.mem_mergeSort, List.mem_filter]

/-- C1: whenever a coerced rank bound is present, every entry returned by the
query application respects it: a present `rankMin = R1` forces `R1 ≤ rank`, a
present `rankMax = R2` forces `rank ≤ R2`, and with both present and
`R1 ≤ R2` every returned entry satisfies `R1 ≤ rank ≤ R2`. -/
theorem applyAll_rank_bounds :
    (∀ (records : List RankingEntry) (r : RawQuery) (R1 : Int),
      coerceBound r.rankMin = some R1 → ∀ e ∈ applyAll records r, R1 ≤ e.rank) ∧
    (∀ (records : List RankingEntry) (r : RawQuery) (R2 : Int),
      coerceBound r.rankMax = some R2 → ∀ e ∈ applyAll records r, e.rank ≤ R2) ∧
    (∀ (records : List RankingEntry) (r : RawQuery) (R1 R2 : Int),
      coerceBound r.rankMin = some R1 → coerceBound r.rankMax = some R2 → R1 ≤ R2 →
      ∀ e ∈ applyAll records r, R1 ≤ e.rank ∧ e.rank ≤ R2) := by
  have hmin : ∀ (records : List RankingEntry) (r : RawQuery) (R1 : Int),
      coerceBound r.rankMin = some R1 → ∀ e ∈ applyAll records r, R1 ≤ e.rank := by
    intro records r R1 h1 e he
    have hp := (mem_applyAll.mp he).2
    unfold passFilter at hp
    simp only [Bool.and_eq_true] at hp
    have h3 := hp.1.2
    have hmk : (mkSpec r).min = coerceBound r.rankMin := rfl
    rw [hmk, h1] at h3
    have hne := coerceBound_ne_zero h1
    unfold minPass at h3
    simp [hne] at h3
    omega
  have hmax : ∀ (records : List RankingEntry) (r : RawQuery) (R2 : Int),
      coerceBound r.rankMax = some R2 → ∀ e ∈ applyAll records r, e.rank ≤ R2 := by
    intro records r R2 h2 e he
    have hp := (mem_applyAll.mp he).2
    unfold passFilter at hp
    simp only [Bool.and_eq_true] at hp
    have h4 := hp.2
    have hmk : (mkSpec r).max = coerceBound r.rankMax := rfl
    rw [hmk, h2] at h4
    have hne := coerceBound_ne_zero h2
    unfold maxPass at h4
    simp [hne] at h4
    omega
  exact ⟨hmin, hmax, fun records r R1 R2 h1 h2 _ e he =>
    ⟨hmin records r R1 h1 e he, hmax records r R2 h2 e he⟩⟩

theorem applyAll_rank_bounds_witness : (2 : Int) ≤ sampleB.rank :=
  applyAll_rank_bounds.1 [sampleA, sampleB] ⟨"", "", "2", "", ""⟩ 2 (by decide) sampleB
    (mem_applyAll.mpr ⟨by decide, by decide⟩)

/-- C2: sorting under `rank-asc` yields a sequence non-decreasing in rank;
under `score-desc` a sequence non-increasing in score with an absent score
treated as `0`; and for every sort key, two entries the comparator ties that
appear in order in the input still appear in order in the output (stability
of the ECMA-262 sort). -/
theorem jsSort_sorted_stable :
    (∀ l : List RankingEntry, (jsSort "rank-asc" l).Pairwise (fun a b => a.rank ≤ b.rank)) ∧
    (∀ l : List RankingEntry,
      (jsSort "score-desc" l).Pairwise (fun a b => scoreOr0 b ≤ scoreOr0 a)) ∧
    (∀ (sv : String) (l : List RankingEntry) (a b : RankingEntry),
      jsCmp sv a b = 0 → List.Sublist [a, b] l → List.Sublist [a, b] (jsSort sv l)) := by
  refine ⟨?_, ?_, ?_⟩
  · intro l
    have h := @List.sorted_mergeSort _ (jsLe "rank-asc")
      (jsLe_trans "rank-asc") (jsLe_total "rank-asc") l
    refine h.imp ?_
    intro a b hab
    have hc : jsCmp "rank-asc" a b = a.rank - b.rank := rfl
    simp only [jsLe, hc, decide_eq_true_eq] at hab
    omega
  · intro l
    have h := @List.sorted_mergeSort _ (jsLe "score-desc")
      (jsLe_trans "score-desc") (jsLe_total "score-desc") l
    refine h.imp ?_
    intro a b hab
    have hc : jsCmp "score-desc" a b = scoreOr0 b - scoreOr0 a := rfl
    simp only [jsLe, hc, decide_eq_true_eq] at hab
    omega
  · intro sv l a b hcmp hsub
    have hle : jsLe sv a b = true := by simp [jsLe, hcmp]
    exact List.pair_sublist_mergeSort (jsLe_trans sv) (jsLe_total sv) hle hsub

theorem jsSort_sorted_stable_witness :
    List.Sublist [tieA, tieB] (jsSort "rank-asc" [tieA, tieB]) :=
  jsSort_sorted_stable.2.2 "rank-asc" [tieA, tieB] tieA tieB (by decide) (by decide)

/-- C3: with a non-empty search text the text filter passes a record exactly
when the lowercased (trimmed) search text occurs as a contiguous substring of
the lowercased `university + " " + country`; with a non-empty country filter
a record passes exactly when its country is string-equal to it; and on the
spec's two-record scenario with `country = "Y"` the query returns exactly the
`B U` entry. -/
theorem filter_match_spec :
    (∀ (r : RawQuery) (item : RankingEntry), (mkSpec r).q ≠ "" →
      (textPass (mkSpec r).q item = true ↔
        ∃ s t, (jsToLower (item.university ++ " " ++ item.country)).data =
          s ++ (jsToLower (jsTrim r.search)).data ++ t)) ∧
    (∀ (country : String) (item : RankingEntry), country ≠ "" →
      (countryPass country item = true ↔ item.country = country)) ∧
    (applyAll (loadData [sampleRawA, sampleRawB]) ⟨"", "Y", "", "", ""⟩ =
      [⟨2, "B U", "Y", some 80, sampleRawB⟩]) := by
  refine ⟨?_, ?_, ?_⟩
  · intro r item hq
    have hmk : (mkSpec r).q = jsToLower (jsTrim r.search) := rfl
    rw [textPass, if_neg hq, includesL_iff, hmk]
  · intro c item hc
    rw [countryPass, if_neg hc]
    simp
  · have hf : List.filter (passFilter (mkSpec ⟨"", "Y", "", "", ""⟩))
        (loadData [sampleRawA, sampleRawB]) = [⟨2, "B U", "Y", some 80, sampleRawB⟩] := by
      decide
    show jsSort (mkSpec ⟨"", "Y", "", "", ""⟩).sortVal
      (List.filter (passFilter (mkSpec ⟨"", "Y", "", "", ""⟩)) (loadData [sampleRawA, sampleRawB]))
      = _
    rw [hf]
    simp [jsSort]

theorem filter_match_spec_witness :
    textPass (mkSpec ⟨"b u", "", "", "", ""⟩).q sampleB = true ↔
      ∃ s t, (jsToLower (sampleB.university ++ " " ++ sampleB.country)).data =
        s ++ (jsToLower (jsTrim "b u")).data ++ t :=
  filter_match_spec.1 ⟨"b u", "", "", "", ""⟩ sampleB (by decide)

/-- C8: the query application is total: for every record list and every raw
filter inputs it returns a (possibly empty) permutation of a sublist of the
records, and a rank bound whose text does not parse as a number (`parseInt`
gives `NaN`) is coerced to an absent bound, giving the same result as an
empty bound field. -/
theorem applyAll_total_safe :
    (∀ (records : List RankingEntry) (r : RawQuery),
      ∃ l, List.Sublist l records ∧ (applyAll records r).Perm l) ∧
    (∀ (records : List RankingEntry) (r : RawQuery) (s : String), jsParseInt s = none →
      applyAll records { r with rankMin := s } = applyAll records { r with rankMin := "" }) ∧
    (∀ (records : List RankingEntry) (r : RawQuery) (s : String), jsParseInt s = none →
      applyAll records { r with rankMax := s } = applyAll records { r with rankMax := "" }) := by
  have hcb : ∀ s : String, jsParseInt s = none → coerceBound s = coerceBound "" := by
    intro s h
    have h1 : coerceBound s = none := by simp [coerceBound, h]
    rw [h1]
    rfl
  refine ⟨?_, ?_, ?_⟩
  · intro records r
    exact ⟨records.filter (passFilter (mkSpec r)), List.filter_sublist _,
      List.mergeSort_perm _ _⟩
  · intro records r s h
    have h1 : mkSpec { r with rankMin := s } = mkSpec { r with rankMin := "" } := by
      simp [mkSpec, hcb s h]
    unfold applyAll
    rw [h1]
  · intro records r s h
    have h1 : mkSpec { r with rankMax := s } = mkSpec { r with rankMax := "" } := by
      simp [mkSpec, hcb s h]
    unfold applyAll
    rw [h1]

theorem applyAll_total_safe_witness :
    applyAll [sampleA, sampleB] ⟨"", "", "abc", "", ""⟩ =
      applyAll [sampleA, sampleB] ⟨"", "", "", "", ""⟩ :=
  applyAll_total_safe.2.1 [sampleA, sampleB] ⟨"", "", "", "", ""⟩ "abc" (by decide)

/-! ### CSV export: scanner lemmas -/

theorem scanQ_cons (c : Char) (xs : List Char) (b : Bool) :
    scanQ (c :: xs) b = scanQ xs (if c = '"' then !b else b) := rfl

theorem scanQ_append (xs : List Char) : ∀ (ys : List Char) (b : Bool),
    scanQ (xs ++ ys) b = scanQ ys (scanQ xs b) := by
  induction xs with
  | nil => intro ys b; rfl
  | cons c cs ih => intro ys b; rw [List.cons_append, scanQ_cons, scanQ_cons, ih]

theorem hasTopSep_cons (sep c : Char) (xs : List Char) (b : Bool) :
    hasTopSep sep (c :: xs) b =
      if c = '"' then hasTopSep sep xs (!b)
      else ((decide (c = sep) && !b) || hasTopSep sep xs b) := rfl

theorem hasTopSep_append (sep : Char) (xs : List Char) : ∀ (ys : List Char) (b : Bool),
    hasTopSep sep (xs ++ ys) b = (hasTopSep sep xs b || hasTopSep sep ys (scanQ xs b)) := by
  induction xs with
  | nil => intro ys b; rfl
  | cons c cs ih =>
    intro ys b
    rw [List.cons_append, hasTopSep_cons, hasTopSep_cons, scanQ_cons]
    by_cases hc : c = '"'
    · simp only [hc, if_pos, ite_true, ih]
    · simp only [hc, ite_false, ih, Bool.or_assoc]

theorem splitTopAux_append_noSep (sep : Char) (xs : List Char) :
    ∀ (ys acc : List Char) (b : Bool), hasTopSep sep xs b = false →
      splitTopAux sep (xs ++ ys) b acc = splitTopAux sep ys (scanQ xs b) (xs.reverse ++ acc) := by
  induction xs with
  | nil => intro ys acc b _; rfl
  | cons c cs ih =>
    intro ys acc b h
    rw [hasTopSep_cons] at h
    by_cases hc : c = '"'
    · subst hc
      simp only [if_pos, ite_true] at h
      rw [List.cons_append]
      show splitTopAux sep (cs ++ ys) (!b) ('"' :: acc) = _
      rw [ih ys ('"' :: acc) (!b) h]
      simp [scanQ_cons, List.append_assoc]
    · simp only [hc, ite_false, Bool.or_eq_false_iff, Bool.and_eq_false_iff] at h
      rw [List.cons_append]
      have hstep : splitTopAux sep (c :: (cs ++ ys)) b acc = splitTopAux sep (cs ++ ys) b (c :: acc) := by
        have hcond : (decide (c = sep) && !b) = false := by
          rcases h.1 with h1 | h1
          · simp [decide_eq_false_iff_not.mp (by simpa using h1)]
          · simp [h1]
        simp [splitTopAux, hc, hcond]
      rw [hstep, ih ys (c :: acc) b h.2]
      have hscan : scanQ (c :: cs) b = scanQ cs b := by simp [scanQ_cons, hc]
      rw [hscan]
      simp [List.append_assoc]

theorem splitTopAux_sep_cons (sep : Char) (hsep : sep ≠ '"') (ys acc : List Char) :
    splitTopAux sep (sep :: ys) false acc = acc.reverse :: splitTopAux sep ys false [] := by
  simp [splitTopAux, hsep]

theorem splitTopAux_single (sep : Char) (xs : List Char) (h : hasTopSep sep xs false = false) :
    splitTopAux sep xs false [] = [xs] := by
  have := splitTopAux_append_noSep sep xs [] [] false h
  simpa [splitTopAux] using this

theorem splitTop_single (sep : Char) (xs : List Char) (h : hasTopSep sep xs false = false) :
    splitTop sep xs = [xs] := splitTopAux_single sep xs h

theorem splitTop_joinNL (sep : Char) (hsep : sep ≠ '"') :
    ∀ lines : List (List Char), lines ≠ [] →
      (∀ l ∈ lines, hasTopSep sep l false = false ∧ scanQ l false = false) →
      splitTopAux sep (joinSep sep lines) false [] = lines := by
  intro lines
  induction lines with
  | nil => intro h; exact absurd rfl h
  | cons l ls ih =>
    intro _ hfacts
    cases ls with
    | nil =>
      have h := (hfacts l (by simp)).1
      simpa [joinSep] using splitTop_single sep l h
    | cons l2 ls2 =>
      have hl := hfacts l (by simp)
      have hrest : ∀ m ∈ l2 :: ls2, hasTopSep sep m false = false ∧ scanQ m false = false := by
        intro m hm; exact hfacts m (by simp [hm])
      show splitTopAux sep (l ++ sep :: joinSep sep (l2 :: ls2)) false [] = _
      rw [splitTopAux_append_noSep sep l (sep :: joinSep sep (l2 :: ls2)) [] false hl.1,
        hl.2, List.append_nil, splitTopAux_sep_cons sep hsep, List.reverse_reverse]
      exact congrArg (l :: ·) (ih (by simp) hrest)

/-! ### CSV export: character-class facts for the chunks -/

theorem plain_chunk_facts (sep : Char) (xs : List Char)
    (h : ∀ c ∈ xs, c ≠ '"' ∧ c ≠ sep) :
    ∀ b : Bool, hasTopSep sep xs b = false ∧ scanQ xs b = b := by
  induction xs with
  | nil => intro b; exact ⟨rfl, rfl⟩
  | cons c cs ih =>
    intro b
    have hc := h c (by simp)
    have ihb := ih (fun d hd => h d (by simp [hd])) b
    rw [hasTopSep_cons, scanQ_cons]
    simp [hc.1, hc.2, ihb.1, ihb.2]

theorem digitChar_isDigit (d : Nat) (h : d < 10) : (digitChar d).isDigit = true := by
  interval_cases d <;> decide

theorem mem_natDigitsAux_isDigit : ∀ (fuel n : Nat), ∀ c ∈ natDigitsAux fuel n, c.isDigit = true := by
  intro fuel
  induction fuel with
  | zero => intro n c hc; simp [natDigitsAux] at hc
  | succ f ih =>
    intro n c hc
    rw [natDigitsAux] at hc
    by_cases h10 : n < 10
    · rw [if_pos h10] at hc
      simp at hc
      exact hc ▸ digitChar_isDigit n h10
    · rw [if_neg h10] at hc
      rcases List.mem_append.mp hc with h | h
      · exact ih (n / 10) c h
      · simp at h
        exact h ▸ digitChar_isDigit (n % 10) (Nat.mod_lt n (by omega))

theorem mem_natDigits_isDigit (n : Nat) : ∀ c ∈ natDigits n, c.isDigit = true :=
  mem_natDigitsAux_isDigit (n + 1) n

theorem isDigit_ne_special {c : Char} (h : c.isDigit = true) :
    c ≠ '"' ∧ c ≠ ',' ∧ c ≠ '\n' ∧ c ≠ '-' := by
  refine ⟨?_, ?_, ?_, ?_⟩ <;> rintro rfl <;> exact absurd h (by decide)

theorem mem_intToDecChars {c : Char} {n : Int} (h : c ∈ intToDecChars n) :
    c.isDigit = true ∨ c = '-' := by
  rw [intToDecChars] at h
  by_cases hn : n < 0
  · rw [if_pos hn] at h
    rcases List.mem_cons.mp h with h | h
    · exact Or.inr h
    · exact Or.inl (mem_natDigits_isDigit _ c h)
  · rw [if_neg hn] at h
    exact Or.inl (mem_natDigits_isDigit _ c h)

theorem intToDecChars_no_special (sep : Char) (hsep : sep = ',' ∨ sep = '\n') (n : Int) :
    ∀ c ∈ intToDecChars n, c ≠ '"' ∧ c ≠ sep := by
  intro c hc
  rcases mem_intToDecChars hc with h | h
  · have := isDigit_ne_special h
    rcases hsep with rfl | rfl
    · exact ⟨this.1, this.2.1⟩
    · exact ⟨this.1, this.2.2.1⟩
  · subst h
    rcases hsep with rfl | rfl <;> exact ⟨by decide, by decide⟩

theorem scoreChars_no_special (sep : Char) (hsep : sep = ',' ∨ sep = '\n') (sc : Option Int) :
    ∀ c ∈ scoreChars sc, c ≠ '"' ∧ c ≠ sep := by
  intro c hc
  cases sc with
  | none => simp [scoreChars] at hc
  | some s => exact intToDecChars_no_special sep hsep s c hc

theorem escQ_scan (sep : Char) : ∀ s : List Char,
    scanQ (escQ s) true = true ∧ hasTopSep sep (escQ s) true = false := by
  intro s
  induction s with
  | nil => exact ⟨rfl, rfl⟩
  | cons c cs ih =>
    by_cases hc : c = '"'
    · subst hc
      rw [escQ]
      simp only [if_pos, ite_true]
      rw [scanQ_cons, scanQ_cons, hasTopSep_cons, hasTopSep_cons]
      simpa using ih
    · rw [escQ, if_neg hc, scanQ_cons, hasTopSep_cons, if_neg hc, if_neg hc]
      simpa [ih.1] using ih.2

theorem quoteF_scan (sep : Char) (s : String) :
    scanQ (quoteF s) false = false ∧ hasTopSep sep (quoteF s) false = false := by
  have hesc := escQ_scan sep s.data
  constructor
  · rw [quoteF, scanQ_cons, if_pos rfl, scanQ_append]
    simp only [Bool.not_false, hesc.1]
    rfl
  · rw [quoteF, hasTopSep_cons, if_pos rfl, hasTopSep_append]
    simp only [Bool.not_false, hesc.1, hesc.2]
    simp [hasTopSep_cons, hasTopSep]

theorem csvLine_facts (sep : Char) (hsep : sep = ',' ∨ sep = '\n') (r : RankingEntry) :
    scanQ (csvLine r) false = false ∧
    (sep = '\n' → hasTopSep sep (csvLine r) false = false) := by
  have hA := plain_chunk_facts sep (intToDecChars r.rank) (intToDecChars_no_special sep hsep r.rank)
  have hB := quoteF_scan sep r.university
  have hC := quoteF_scan sep r.country
  have hD := plain_chunk_facts sep (scoreChars r.score) (scoreChars_no_special sep hsep r.score)
  have hcomma : (',' : Char) ≠ '"' := by decide
  constructor
  · rw [csvLine, scanQ_append, (hA false).2, scanQ_cons, if_neg hcomma, scanQ_append, hB.1,
      scanQ_cons, if_neg hcomma, scanQ_append, hC.1, scanQ_cons, if_neg hcomma, (hD false).2]
  · intro hnl
    have hcsep : (',' : Char) ≠ sep := by subst hnl; decide
    rw [csvLine, hasTopSep_append, (hA false).1, (hA false).2, hasTopSep_cons, if_neg hcomma]
    simp only [hcsep, decide_eq_false_iff_not.mpr hcsep, Bool.false_and, Bool.false_or]
    rw [hasTopSep_append, hB.2, hB.1, hasTopSep_cons, if_neg hcomma]
    simp only [decide_eq_false_iff_not.mpr hcsep, Bool.false_and, Bool.false_or]
    rw [hasTopSep_append, hC.2, hC.1, hasTopSep_cons, if_neg hcomma]
    simp only [decide_eq_false_iff_not.mpr hcsep, Bool.false_and, Bool.false_or]
    exact (hD false).1

/-! ### CSV export: field round-trips -/

theorem unqAux_escQ : ∀ s : List Char, unqAux (escQ s ++ ['"']) = some s := by
  intro s
  induction s with
  | nil => rfl
  | cons c cs ih =>
    by_cases hc : c = '"'
    · subst hc
      have hE : escQ ('"' :: cs) ++ ['"'] = '"' :: '"' :: (escQ cs ++ ['"']) := by
        simp [escQ]
      rw [hE]
      simp [unqAux, ih]
    · have hE : escQ (c :: cs) ++ ['"'] = c :: (escQ cs ++ ['"']) := by
        simp [escQ, hc]
      rw [hE, unqAux.eq_def]
      split
      · rename_i heq
        exact absurd heq (List.cons_ne_nil _ _)
      · rename_i heq
        injection heq with h1 _
        exact absurd h1 hc
      · rename_i heq
        injection heq with h1 _
        exact absurd h1 hc
      · rename_i d rest heq
        injection heq with h1 h2
        subst h1
        rw [← h2, ih]
        rfl

theorem unquoteF_quoteF (s : String) : unquoteF (quoteF s) = some s := by
  rw [quoteF, unquoteF]
  rw [unqAux_escQ s.data]
  cases s
  rfl

theorem digitsVal_append_digit (ds : List Char) (c : Char) :
    digitsVal (ds ++ [c]) = digitsVal ds * 10 + (c.toNat - 48) := by
  simp [digitsVal, List.foldl_append]

theorem digitChar_toNat (d : Nat) (h : d < 10) : (digitChar d).toNat = 48 + d := by
  interval_cases d <;> decide

theorem natDigitsAux_val : ∀ (fuel n : Nat), n < fuel → digitsVal (natDigitsAux fuel n) = n := by
  intro fuel
  induction fuel with
  | zero => intro n h; omega
  | succ f ih =>
    intro n h
    rw [natDigitsAux]
    by_cases h10 : n < 10
    · rw [if_pos h10]
      show digitsVal ([] ++ [digitChar n]) = n
      rw [digitsVal_append_digit, digitChar_toNat n h10]
      simp [digitsVal]
    · rw [if_neg h10]
      have hdiv : n / 10 < n := Nat.div_lt_self (by omega) (by omega)
      rw [digitsVal_append_digit, ih (n / 10) (by omega), digitChar_toNat (n % 10) (by omega)]
      omega

theorem digitsVal_natDigits (n : Nat) : digitsVal (natDigits n) = n :=
  natDigitsAux_val (n + 1) n (Nat.lt_succ_self n)

theorem natDigitsAux_ne_nil (fuel n : Nat) (h : n < fuel) : natDigitsAux fuel n ≠ [] := by
  cases fuel with
  | zero => omega
  | succ f =>
    rw [natDigitsAux]
    by_cases h10 : n < 10
    · simp [h10]
    · simp [h10]

theorem natDigits_ne_nil (n : Nat) : natDigits n ≠ [] :=
  natDigitsAux_ne_nil (n + 1) n (Nat.lt_succ_self n)

theorem intToDecChars_ne_nil (n : Int) : intToDecChars n ≠ [] := by
  rw [intToDecChars]
  by_cases hn : n < 0
  · simp [hn]
  · simp [hn, natDigits_ne_nil]

theorem decToInt_intToDecChars (n : Int) : decToInt (intToDecChars n) = some n := by
  rw [intToDecChars]
  by_cases hn : n < 0
  · rw [if_pos hn, decToInt]
    have hne := natDigits_ne_nil (-n).toNat
    have hdig : ((natDigits (-n).toNat).all Char.isDigit) = true :=
      List.all_eq_true.mpr fun c hc => mem_natDigits_isDigit _ c hc
    rw [if_pos ⟨hne, hdig⟩]
    rw [digitsVal_natDigits]
    congr 1
    omega
  · rw [if_neg hn]
    have hne := natDigits_ne_nil n.toNat
    have hdig : ((natDigits n.toNat).all Char.isDigit) = true :=
      List.all_eq_true.mpr fun c hc => mem_natDigits_isDigit _ c hc
    cases hds : natDigits n.toNat with
    | nil => exact absurd hds hne
    | cons d ds =>
      have hd : d.isDigit = true := mem_natDigits_isDigit n.toNat d (by rw [hds]; simp)
      have hdne : d ≠ '-' := (isDigit_ne_special hd).2.2.2
      rw [decToInt.eq_def]
      split
      · rename_i heq
        injection heq with h1 _
        exact absurd h1 hdne
      · rw [← hds, if_pos ⟨hne, hdig⟩, digitsVal_natDigits]
        congr 1
        omega

theorem splitTop_csvLine (r : RankingEntry) :
    splitTop ',' (csvLine r) =
      [intToDecChars r.rank, quoteF r.university, quoteF r.country, scoreChars r.score] := by
  have hsep : (',' : Char) = ',' ∨ (',' : Char) = '\n' := Or.inl rfl
  have hA := plain_chunk_facts ',' (intToDecChars r.rank) (intToDecChars_no_special ',' hsep r.rank)
  have hB := quoteF_scan ',' r.university
  have hC := quoteF_scan ',' r.country
  have hD := plain_chunk_facts ',' (scoreChars r.score) (scoreChars_no_special ',' hsep r.score)
  have hcomma : (',' : Char) ≠ '"' := by decide
  rw [splitTop, csvLine,
    splitTopAux_append_noSep ',' (intToDecChars r.rank) _ [] false (hA false).1, (hA false).2,
    List.append_nil, splitTopAux_sep_cons ',' hcomma, List.reverse_reverse,
    splitTopAux_append_noSep ',' (quoteF r.university) _ [] false hB.2, hB.1,
    List.append_nil, splitTopAux_sep_cons ',' hcomma, List.reverse_reverse,
    splitTopAux_append_noSep ',' (quoteF r.country) _ [] false hC.2, hC.1,
    List.append_nil, splitTopAux_sep_cons ',' hcomma, List.reverse_reverse,
    splitTopAux_single ',' (scoreChars r.score) (hD false).1]

theorem parseCsvLine_csvLine (r : RankingEntry) : parseCsvLine (csvLine r) = some (entryRow r) := by
  simp only [parseCsvLine, splitTop_csvLine, decToInt_intToDecChars, unquoteF_quoteF]
  cases hsc : r.score with
  | none => simp [scoreChars, entryRow, hsc]
  | some s =>
    have hne : scoreChars (some s) ≠ [] := by
      simpa [scoreChars] using intToDecChars_ne_nil s
    rw [if_neg hne]
    rw [show scoreChars (some s) = intToDecChars s from rfl, decToInt_intToDecChars]
    simp [entryRow, hsc]

theorem parseLines_csvLines (rows : List RankingEntry) :
    parseLines (rows.map csvLine) = some (rows.map entryRow) := by
  induction rows with
  | nil => rfl
  | cons r rs ih => simp [parseLines, parseCsvLine_csvLine, ih]

theorem header_facts :
    hasTopSep '\n' headerChars false = false ∧ scanQ headerChars false = false := by
  constructor <;> decide

/-- C5: for every non-empty view, the exported CSV consists of the header
record `rank,university,country,score` followed by one record per row in view
order (splitting the text at newlines that are outside double quotes), and
parsing the export recovers rank, university, country and score of every row
— quoting and quote-doubling included. -/
theorem csv_round_trip (rows : List RankingEntry) (hne : rows ≠ []) :
    ∃ s : String, exportToCSV rows = some s ∧
      splitTop '\n' s.data = headerChars :: rows.map csvLine ∧
      parseCsv s = some (rows.map entryRow) := by
  refine ⟨⟨joinNL (headerChars :: rows.map csvLine)⟩, ?_, ?_, ?_⟩
  · rw [exportToCSV, if_neg hne]
  · have hnl : ('\n' : Char) ≠ '"' := by decide
    have hfacts : ∀ l ∈ headerChars :: rows.map csvLine,
        hasTopSep '\n' l false = false ∧ scanQ l false = false := by
      intro l hl
      rcases List.mem_cons.mp hl with rfl | hl
      · exact ⟨header_facts.1, header_facts.2⟩
      · obtain ⟨r, _, rfl⟩ := List.mem_map.mp hl
        have h := csvLine_facts '\n' (Or.inr rfl) r
        exact ⟨h.2 rfl, h.1⟩
    exact splitTop_joinNL '\n' hnl (headerChars :: rows.map csvLine) (by simp) hfacts
  · rw [parseCsv]
    have hsplit : splitTop '\n' (String.data ⟨joinNL (headerChars :: rows.map csvLine)⟩) =
        headerChars :: rows.map csvLine := by
      have hnl : ('\n' : Char) ≠ '"' := by decide
      have hfacts : ∀ l ∈ headerChars :: rows.map csvLine,
          hasTopSep '\n' l false = false ∧ scanQ l false = false := by
        intro l hl
        rcases List.mem_cons.mp hl with rfl | hl
        · exact ⟨header_facts.1, header_facts.2⟩
        · obtain ⟨r, _, rfl⟩ := List.mem_map.mp hl
          have h := csvLine_facts '\n' (Or.inr rfl) r
          exact ⟨h.2 rfl, h.1⟩
      exact splitTop_joinNL '\n' hnl (headerChars :: rows.map csvLine) (by simp) hfacts
    rw [hsplit]
    simp [parseLines_csvLines rows]

/-! ### HTML escaping -/

theorem countChar_append (c : Char) (xs : List Char) : ∀ ys : List Char,
    countChar c (xs ++ ys) = countChar c xs + countChar c ys := by
  induction xs with
  | nil => intro ys; simp [countChar]
  | cons d ds ih =>
    intro ys
    show (if d = c then 1 else 0) + countChar c (ds ++ ys) =
      ((if d = c then 1 else 0) + countChar c ds) + countChar c ys
    rw [ih]
    omega

theorem countCharS_append (c : Char) (a b : String) :
    countCharS c (a ++ b) = countCharS c a + countCharS c b := by
  rw [countCharS, countCharS, countCharS, String.data_append, countChar_append]

theorem countChar_eq_zero (c : Char) (xs : List Char) (h : ∀ d ∈ xs, d ≠ c) :
    countChar c xs = 0 := by
  induction xs with
  | nil => rfl
  | cons d ds ih =>
    rw [countChar, if_neg (h d (by simp)), ih (fun e he => h e (by simp [he]))]

theorem countChar_escChar_lt (c : Char) : countChar '<' (escChar c) = 0 := by
  rw [escChar]
  split_ifs with h1 h2 h3 h4 h5
  · decide
  · decide
  · decide
  · decide
  · decide
  · simp [countChar, h2]

theorem countChar_escChar_gt (c : Char) : countChar '>' (escChar c) = 0 := by
  rw [escChar]
  split_ifs with h1 h2 h3 h4 h5
  · decide
  · decide
  · decide
  · decide
  · decide
  · simp [countChar, h3]

theorem countChar_escChar_quot (c : Char) : countChar '"' (escChar c) = 0 := by
  rw [escChar]
  split_ifs with h1 h2 h3 h4 h5
  · decide
  · decide
  · decide
  · decide
  · decide
  · simp [countChar, h4]

theorem countChar_escChar_apos (c : Char) : countChar (Char.ofNat 39) (escChar c) = 0 := by
  rw [escChar]
  split_ifs with h1 h2 h3 h4 h5
  · decide
  · decide
  · decide
  · decide
  · decide
  · simp [countChar, h5]

theorem countChar_concatMap_zero (d : Char) (f : Char → List Char)
    (h : ∀ c, countChar d (f c) = 0) : ∀ xs, countChar d (concatMapChars f xs) = 0 := by
  intro xs
  induction xs with
  | nil => rfl
  | cons c cs ih => rw [concatMapChars, countChar_append, h c, ih]

theorem countCharS_escapeHtml_zero (d : Char) (hd : ∀ c, countChar d (escChar c) = 0)
    (v : Option String) : countCharS d (escapeHtml v) = 0 := by
  rcases v with _ | s
  · rfl
  · rw [escapeHtml]
    by_cases hs : s = ""
    · rw [if_pos hs]; rfl
    · rw [if_neg hs]
      exact countChar_concatMap_zero d escChar hd s.data

theorem countLt_escapeHtml (v : Option String) : countCharS '<' (escapeHtml v) = 0 :=
  countCharS_escapeHtml_zero '<' countChar_escChar_lt v

set_option maxHeartbeats 2000000 in
theorem unescape_concatMap : ∀ s : List Char, unescapeHtml (concatMapChars escChar s) = s := by
  intro s
  induction s with
  | nil => rfl
  | cons c cs ih =>
    by_cases h1 : c = '&'
    · subst h1
      have hE : concatMapChars escChar ('&' :: cs) =
          '&' :: 'a' :: 'm' :: 'p' :: ';' :: concatMapChars escChar cs := by
        simp [concatMapChars, escChar]
      rw [hE, unescapeHtml, ih]
    · by_cases h2 : c = '<'
      · subst h2
        have hE : concatMapChars escChar ('<' :: cs) =
            '&' :: 'l' :: 't' :: ';' :: concatMapChars escChar cs := by
          simp [concatMapChars, escChar]
        rw [hE, unescapeHtml, ih]
      · by_cases h3 : c = '>'
        · subst h3
          have hE : concatMapChars escChar ('>' :: cs) =
              '&' :: 'g' :: 't' :: ';' :: concatMapChars escChar cs := by
            simp [concatMapChars, escChar]
          rw [hE, unescapeHtml, ih]
        · by_cases h4 : c = '"'
          · subst h4
            have hE : concatMapChars escChar ('"' :: cs) =
                '&' :: 'q' :: 'u' :: 'o' :: 't' :: ';' :: concatMapChars escChar cs := by
              simp [concatMapChars, escChar]
            rw [hE, unescapeHtml, ih]
          · by_cases h5 : c = Char.ofNat 39
            · subst h5
              have hE : concatMapChars escChar (Char.ofNat 39 :: cs) =
                  '&' :: '#' :: '3' :: '9' :: ';' :: concatMapChars escChar cs := by
                simp [concatMapChars, escChar]
              rw [hE, unescapeHtml, ih]
            · have hE : concatMapChars escChar (c :: cs) = c :: concatMapChars escChar cs := by
                simp [concatMapChars, escChar, h1, h2, h3, h4, h5]
              rw [hE, unescapeHtml.eq_def]
              split
              · rename_i heq
                injection heq with hh _
                exact absurd hh h1
              · rename_i heq
                injection heq with hh _
                exact absurd hh h1
              · rename_i heq
                injection heq with hh _
                exact absurd hh h1
              · rename_i heq
                injection heq with hh _
                exact absurd hh h1
              · rename_i heq
                injection heq with hh _
                exact absurd hh h1
              · rename_i d rest heq
                injection heq with hh1 hh2
                subst hh1
                rw [← hh2, ih]
              · rename_i heq
                exact absurd heq (List.cons_ne_nil _ _)

theorem escapeHtml_lossless (s : String) : unescapeHtml (escapeHtml (some s)).data = s.data := by
  rw [escapeHtml]
  by_cases hs : s = ""
  · rw [if_pos hs, hs]
    rfl
  · rw [if_neg hs]
    exact unescape_concatMap s.data

/-! ### Rendered fragments: markup independence from user text -/

theorem countLt_dash_univ (u : String) :
    countCharS '<' (if u = "" then ("" : String) else "— " ++ escapeHtml (some u)) = 0 := by
  by_cases h : u = ""
  · rw [if_pos h]; rfl
  · rw [if_neg h, countCharS_append, countLt_escapeHtml]
    decide

theorem countLt_empty_str : countCharS '<' "" = 0 := rfl

theorem countLt_noteHtml (n : Note) :
    countCharS '<' (noteHtml n) =
      countCharS '<' (noteHtml ⟨"", "", "", n.rating, n.ts⟩) := by
  simp only [noteHtml, countCharS_append, countLt_escapeHtml, countLt_dash_univ, ite_true,
    countLt_empty_str]

theorem countCharS_join (c : Char) : ∀ l : List String,
    countCharS c (String.join l) = (l.map (countCharS c)).sum := by
  intro l
  induction l with
  | nil => rfl
  | cons s ls ih =>
    have hcons : String.join (s :: ls) = s ++ String.join ls := by
      simp [String.join_eq]
      rfl
    rw [hcons, countCharS_append, ih, List.map_cons, List.sum_cons]

theorem countLt_renderNotesList (arr : List Note) :
    countCharS '<' (renderNotesList arr) =
      countCharS '<' (renderNotesList
        (arr.map (fun n => ⟨"", "", "", n.rating, n.ts⟩))) := by
  rw [renderNotesList, renderNotesList]
  by_cases h : arr = []
  · subst h; rfl
  · have h2 : arr.map (fun n => (⟨"", "", "", n.rating, n.ts⟩ : Note)) ≠ [] := by simp [h]
    rw [if_neg h, if_neg h2, countCharS_join, countCharS_join]
    simp only [List.map_map, Function.comp_def]
    exact congrArg List.sum (List.map_congr_left (fun n _ => countLt_noteHtml n))

theorem isDigit_ne {c d : Char} (h : c.isDigit = true) (hd : d.isDigit = false) : c ≠ d := by
  rintro rfl
  rw [h] at hd
  cases hd

theorem countChar_natDigits (d : Char) (hd : d.isDigit = false) (n : Nat) :
    countChar d (natDigits n) = 0 :=
  countChar_eq_zero d _ (fun c hc => isDigit_ne (mem_natDigits_isDigit n c hc) hd)

theorem countChar_intToDecChars (d : Char) (hd : d.isDigit = false) (hdm : d ≠ '-') (n : Int) :
    countChar d (intToDecChars n) = 0 := by
  refine countChar_eq_zero d _ (fun c hc => ?_)
  rcases mem_intToDecChars hc with h | h
  · exact isDigit_ne h hd
  · subst h
    exact fun hh => hdm hh.symm

theorem countLt_starCls (avg : Option Rat) (i : Nat) : countCharS '<' (starCls avg i) = 0 := by
  rw [starCls]
  split_ifs <;> decide

theorem countLt_ratFixed1 (q : Rat) : countCharS '<' (ratFixed1 q) = 0 := by
  show countChar '<' (intToDecChars _ ++ '.' :: natDigits _) = 0
  rw [countChar_append, countChar_intToDecChars '<' (by decide) (by decide), countChar,
    if_neg (by decide : ¬('.' : Char) = '<'), countChar_natDigits '<' (by decide)]

theorem countLt_starSpan (avg : Option Rat) (i : Nat) : countCharS '<' (starSpan avg i) = 2 := by
  have hdig : countCharS '<' (⟨natDigits i⟩ : String) = 0 :=
    countChar_natDigits '<' (by decide) i
  rw [starSpan, countCharS_append, countCharS_append, countCharS_append, countCharS_append,
    countLt_starCls, hdig]
  decide

theorem countLt_renderStars (avg : Option Rat) : countCharS '<' (renderStars avg) = 14 := by
  have htail : countCharS '<'
      (if avgTruthy avg then "<span class=\"kv\"> " ++ ratFixed1 (avg.getD 0) ++ "</span>"
       else "<span class=\"kv\"> (no ratings)</span>") = 2 := by
    split_ifs
    · rw [countCharS_append, countCharS_append, countLt_ratFixed1]
      decide
    · decide
  rw [renderStars, countCharS_append, countCharS_append, countCharS_append, countCharS_append,
    countCharS_append, countCharS_append, countCharS_append,
    countLt_starSpan, countLt_starSpan, countLt_starSpan, countLt_starSpan, countLt_starSpan,
    htail]
  decide

theorem countLt_notesCell (item : RankingEntry) (notes : List Note) :
    countCharS '<' (notesCellOf item notes) = 2 := by
  rw [notesCellOf, countCharS_append, countCharS_append]
  have hmid : ∀ k : Nat, countCharS '<'
      (if k = 0 then ("-" : String)
       else (⟨natDigits k⟩ : String) ++ " note" ++ (if k > 1 then "s" else "")) = 0 := by
    intro k
    split_ifs with h0 h1
    · decide
    · rw [countCharS_append, countCharS_append]
      have : countCharS '<' (⟨natDigits k⟩ : String) = 0 :=
        countChar_natDigits '<' (by decide) k
      rw [this]
      decide
    · rw [countCharS_append, countCharS_append]
      have : countCharS '<' (⟨natDigits k⟩ : String) = 0 :=
        countChar_natDigits '<' (by decide) k
      rw [this]
      decide
  rw [hmid]
  decide

theorem countLt_scoreCell (item : RankingEntry) : countCharS '<' (scoreCellOf item) = 2 := by
  rw [scoreCellOf, countCharS_append, countCharS_append]
  have hmid : countCharS '<'
      (match item.score with
       | some s => (⟨intToDecChars s⟩ : String)
       | none => "—") = 0 := by
    cases item.score with
    | none => decide
    | some s => exact countChar_intToDecChars '<' (by decide) (by decide) s
  rw [hmid]
  decide

theorem countLt_rankCell (item : RankingEntry) : countCharS '<' (rankCellOf item) = 4 := by
  rw [rankCellOf, countCharS_append, countCharS_append]
  have hmid : countCharS '<' (⟨intToDecChars item.rank⟩ : String) = 0 :=
    countChar_intToDecChars '<' (by decide) (by decide) item.rank
  rw [hmid]
  decide

theorem countLt_rowHtml (item : RankingEntry) (ratings : String → Option Agg)
    (notes : List Note) (u c : String) :
    countCharS '<' (rowHtml { item with university := u, country := c } ratings notes) =
      countCharS '<' (rowHtml item ratings notes) := by
  simp only [rowHtml, uniCellOf, countryCellOf, ratingCellOf, countCharS_append,
    countLt_escapeHtml, countLt_renderStars, countLt_notesCell, countLt_scoreCell,
    countLt_rankCell]

/-- C10: `escapeHtml` maps `null`, `undefined` and empty input to the empty
string; on any other string it replaces exactly the five special characters
`&`, `<`, `>`, `"`, apostrophe by their entities and changes nothing else
(undoing the entity substitution recovers the input verbatim), and its output
carries no raw `<`, `>`, `"` or apostrophe character.  Consequently the
user-supplied strings rendered into the notes feed (author, university, note
text) and into the table row (university, country) all pass through
`escapeHtml`: the number of `<` characters of the rendered markup is the same
as with those fields blanked, for every input. -/
theorem escapeHtml_render_safe :
    (escapeHtml none = "" ∧ escapeHtml (some "") = "") ∧
    (∀ s : String, unescapeHtml (escapeHtml (some s)).data = s.data) ∧
    (∀ s : String,
      countCharS '<' (escapeHtml (some s)) = 0 ∧
      countCharS '>' (escapeHtml (some s)) = 0 ∧
      countCharS '"' (escapeHtml (some s)) = 0 ∧
      countCharS (Char.ofNat 39) (escapeHtml (some s)) = 0) ∧
    (∀ n : Note, countCharS '<' (noteHtml n) =
      countCharS '<' (noteHtml ⟨"", "", "", n.rating, n.ts⟩)) ∧
    (∀ arr : List Note, countCharS '<' (renderNotesList arr) =
      countCharS '<' (renderNotesList (arr.map (fun n => ⟨"", "", "", n.rating, n.ts⟩)))) ∧
    (∀ (item : RankingEntry) (ratings : String → Option Agg) (notes : List Note) (u c : String),
      countCharS '<' (rowHtml { item with university := u, country := c } ratings notes) =
        countCharS '<' (rowHtml item ratings notes)) := by
  refine ⟨⟨rfl, rfl⟩, escapeHtml_lossless, ?_, countLt_noteHtml, countLt_renderNotesList,
    countLt_rowHtml⟩
  intro s
  exact ⟨countCharS_escapeHtml_zero '<' countChar_escChar_lt _,
    countCharS_escapeHtml_zero '>' countChar_escChar_gt _,
    countCharS_escapeHtml_zero '"' countChar_escChar_quot _,
    countCharS_escapeHtml_zero (Char.ofNat 39) countChar_escChar_apos _⟩

theorem csv_round_trip_witness :
    ∃ s : String,
      exportToCSV [⟨1, "A \"quoted\" U", "X,Y", some 90, sampleRawA⟩] = some s ∧
      splitTop '\n' s.data =
        headerChars :: [⟨1, "A \"quoted\" U", "X,Y", some 90, sampleRawA⟩].map csvLine ∧
      parseCsv s = some ([⟨1, "A \"quoted\" U", "X,Y", some 90, sampleRawA⟩].map entryRow) :=
  csv_round_trip [⟨1, "A \"quoted\" U", "X,Y", some 90, sampleRawA⟩] (by decide)

end Ediguide
